import Mathlib

/-!
Verification development for the routing-and-capacity control core of the
vidur_autoscaling repository: the Round-Robin and Least-Outstanding-Requests
(LOR) global schedulers, the Inferline and Custom autoscalers, and their
NetworkEnvelope arrival-rate estimators.

Numbers that the source manipulates as Python floats are embedded as
rationals; Python ints are embedded as Int or Nat.  Python dicts are
embedded as association lists in insertion order, Python sets as lists
queried by membership, and the deque of arrivals as a list.
-/

/-- A request entity (vidur.entities.request): arrival timestamp and the
prefill/decode token counts consumed by the core. -/
structure Request where
  arrivedAt : ℚ
  numPrefillTokens : ℤ
  numDecodeTokens : ℤ
  deriving DecidableEq

/-- The slice of a replica scheduler read by the global schedulers: the
length of its pending request queue and of its in-flight allocation map. -/
structure ReplicaLoad where
  requestQueueLen : ℕ
  allocationMapLen : ℕ
  deriving DecidableEq

/-- Modelled from the spec: BaseGlobalScheduler.check_replica_to_free is
membership of the replica id in the draining set (the source of the base
class is not in the repository slice; §4.2 of the spec and the schedulers
docstrings fix it as draining-set membership). -/
def checkReplicaToFree (replicasToFree : List ℕ) (replicaId : ℕ) : Bool :=
  replicasToFree.contains replicaId

/-- Modelled from the spec: BaseGlobalScheduler.sort_requests sorts the
pending queue by arrival timestamp, ties broken by insertion order
(a stable sort, §4.2 of the spec). -/
def sortRequests (queue : List Request) : List Request :=
  List.insertionSort (fun a b => a.arrivedAt ≤ b.arrivedAt) queue

/-- Modelled from the spec: adding an element to a Python set, embedded on
lists as an append guarded by membership (idempotent add, §4.2). -/
def setAdd (s : List ℕ) (x : ℕ) : List ℕ :=
  if s.contains x then s else s ++ [x]

/-- Outstanding load of a replica: pending queue length plus in-flight
allocation count, as computed inline by LORGlobalScheduler. -/
def outstandingRequests (rl : ReplicaLoad) : ℕ :=
  rl.requestQueueLen + rl.allocationMapLen

/-- Dict lookup self._replica_schedulers[id], returning the outstanding
load of that replica (ids queried always come from the dict keys). -/
def loadOf (replicas : List (ℕ × ReplicaLoad)) (replicaId : ℕ) : ℕ :=
  match replicas.find? (fun p => p.1 == replicaId) with
  | some p => outstandingRequests p.2
  | none => 0

/-- The running-minimum scan shared by LORGlobalScheduler.schedule and
LORGlobalScheduler.mark_replica_to_free: start from
min_outstanding_requests = infinity and selected = None, and replace the
accumulator exactly when the current load is strictly below the minimum
(so the first element attaining the minimum wins).  The accumulator holds
(min load so far, selected element). -/
def minScan {α : Type} (load : α → ℕ) (l : List α) : Option (ℕ × α) :=
  l.foldl (fun acc x =>
    match acc with
    | none => some (load x, x)
    | some mb => if load x < mb.1 then some (load x, x) else some mb) none

/-- State of RoundRobinGlobalScheduler: the inherited queue, replica map
and draining set, plus its own monotone request counter. -/
structure RoundRobinState where
  requestQueue : List Request
  replicaSchedulers : List (ℕ × ReplicaLoad)
  replicasToFree : List ℕ
  requestCounter : ℕ
  deriving DecidableEq

/-- The candidate list of RoundRobinGlobalScheduler.schedule: ids of
replicas not marked to be freed, sorted ascending. -/
def rrAvailableIds (s : RoundRobinState) : List ℕ :=
  List.insertionSort (· ≤ ·)
    ((s.replicaSchedulers.map Prod.fst).filter
      (fun replicaId => !(checkReplicaToFree s.replicasToFree replicaId)))

/-- The while-loop of RoundRobinGlobalScheduler.schedule: pop each request,
assign it to candidates[counter % len(candidates)], increment the counter. -/
def rrAssignLoop (cands : List ℕ) : List Request → ℕ → List (ℕ × Request) × ℕ
  | [], counter => ([], counter)
  | r :: rest, counter =>
    let replicaId := cands.getD (counter % cands.length) 0
    let tail := rrAssignLoop cands rest (counter + 1)
    ((replicaId, r) :: tail.1, tail.2)

/-- RoundRobinGlobalScheduler.schedule: sort the queue, build the sorted
non-draining candidate list, return empty (queue kept) when no candidate
exists, otherwise drain the whole queue through the round-robin counter. -/
def rrSchedule (s : RoundRobinState) : List (ℕ × Request) × RoundRobinState :=
  let sortedQueue := sortRequests s.requestQueue
  let avail := rrAvailableIds s
  if avail.isEmpty then
    ([], { s with requestQueue := sortedQueue })
  else
    let result := rrAssignLoop avail sortedQueue s.requestCounter
    (result.1, { s with requestQueue := [], requestCounter := result.2 })

/-- State of LORGlobalScheduler: inherited queue, replica map, draining set. -/
structure LORState where
  requestQueue : List Request
  replicaSchedulers : List (ℕ × ReplicaLoad)
  replicasToFree : List ℕ
  deriving DecidableEq

/-- The candidate list of LORGlobalScheduler.schedule: ids of replicas not
marked to be freed, in dict (insertion) order. -/
def lorAvailableIds (s : LORState) : List ℕ :=
  (s.replicaSchedulers.map Prod.fst).filter
    (fun replicaId => !(checkReplicaToFree s.replicasToFree replicaId))

/-- LORGlobalScheduler.schedule: sort the queue, return empty (queue kept)
when every replica is draining, otherwise assign every request to the
replica of minimum outstanding load under the load snapshot taken at call
time (the scan is recomputed per request but reads unchanged loads). -/
def lorSchedule (s : LORState) : List (ℕ × Request) × LORState :=
  let sortedQueue := sortRequests s.requestQueue
  let avail := lorAvailableIds s
  if avail.isEmpty then
    ([], { s with requestQueue := sortedQueue })
  else
    let mapping := sortedQueue.filterMap (fun r =>
      (minScan (loadOf s.replicaSchedulers) avail).map (fun mb => (mb.2, r)))
    (mapping, { s with requestQueue := [] })

/-- LORGlobalScheduler.mark_replica_to_free: scan all replicas in dict
order, skipping those already marked, tracking the minimum outstanding
load; add the selected replica to the draining set and return it, or
return none when every replica is already marked. -/
def lorMarkReplicaToFree (s : LORState) : Option ℕ × LORState :=
  let scan := s.replicaSchedulers.foldl (fun acc p =>
    if checkReplicaToFree s.replicasToFree p.1 then acc
    else
      match acc with
      | none => some (outstandingRequests p.2, p.1)
      | some mb =>
        if outstandingRequests p.2 < mb.1 then some (outstandingRequests p.2, p.1)
        else some mb) none
  match scan with
  | some mb => (some mb.2, { s with replicasToFree := setAdd s.replicasToFree mb.2 })
  | none => (none, s)

/-- Sum of the token weights of arrivals whose timestamp lies in the
half-open window [ws, we), as both NetworkEnvelope variants compute it. -/
def tokensInWindow (arrivals : List (ℚ × ℚ)) (ws we : ℚ) : ℚ :=
  ((arrivals.filter (fun a => decide (ws ≤ a.1) && decide (a.1 < we))).map Prod.snd).sum

/-- The arrival-pruning loop shared by both NetworkEnvelope variants:
popleft while the head timestamp is strictly below the cutoff. -/
def pruneArrivals (arrivals : List (ℚ × ℚ)) (cutoff : ℚ) : List (ℚ × ℚ) :=
  arrivals.dropWhile (fun a => decide (a.1 < cutoff))

/-- Python int() truncation toward zero on a rational. -/
def truncQ (q : ℚ) : ℤ :=
  if q < 0 then -⌊-q⌋ else ⌊q⌋

/-- NetworkEnvelope.on_request_arrival (both variants): append
(arrived_at, prefill + decode tokens) to the arrival log. -/
def envelopeOnRequestArrival (arrivals : List (ℚ × ℚ)) (r : Request) : List (ℚ × ℚ) :=
  arrivals ++ [(r.arrivedAt, ((r.numPrefillTokens + r.numDecodeTokens : ℤ) : ℚ))]

/-- NetworkEnvelope.get_max_request_rate of inferline_autoscaler.py:
guard non-positive window, prune below time - look_back_time, return 0 on
an empty log; otherwise sample min(10, int(look_back/window)+1) window
positions (a single truncated window when that is at most one, else
positions cutoff + i*step with step (time - window - cutoff)/(samples-1),
windows clamped to end at time, each rate divided by window_size).
Returns the rate together with the mutated arrival log. -/
def inferlineMaxRate (arrivals : List (ℚ × ℚ)) (time windowSize lookBackTime : ℚ) :
    ℚ × List (ℚ × ℚ) :=
  if windowSize ≤ 0 then (0, arrivals)
  else
    let cutoff := time - lookBackTime
    let kept := pruneArrivals arrivals cutoff
    if kept.isEmpty then (0, kept)
    else
      let numSamples : ℤ := min 10 (truncQ (lookBackTime / windowSize) + 1)
      if numSamples ≤ 1 then
        let ws := max cutoff (time - windowSize)
        let we := time
        let tok := tokensInWindow kept ws we
        if ws < we then (tok / (we - ws), kept) else (0, kept)
      else
        let step := (time - windowSize - cutoff) / ((numSamples : ℚ) - 1)
        let maxRate := (List.range numSamples.toNat).foldl (fun (acc : ℚ) (i : ℕ) =>
          let ws0 := cutoff + (i : ℚ) * step
          let we0 := ws0 + windowSize
          let w := if time < we0 then (time - windowSize, time) else (ws0, we0)
          max acc (tokensInWindow kept w.1 w.2 / windowSize)) 0
        (maxRate, kept)

/-- The while-loop of the Custom NetworkEnvelope.get_max_request_rate,
with an explicit fuel bound on the iteration count (the wrapper below
supplies fuel covering every iteration of the source loop, whose window
start advances by window_size/10 until it reaches time): evaluate the
half-open window [window_start, min(window_start+window_size, time)),
divide by the actual window duration when positive, keep the maximum. -/
def customLoopFuel (arrivals : List (ℚ × ℚ)) (time windowSize : ℚ) :
    ℕ → ℚ → ℚ → ℚ
  | 0, _, maxRate => maxRate
  | fuel+1, windowStart, maxRate =>
    if windowStart < time then
      let windowEnd := min (windowStart + windowSize) time
      let tokens := tokensInWindow arrivals windowStart windowEnd
      let actual := windowEnd - windowStart
      let m2 := if 0 < actual then max maxRate (tokens / actual) else maxRate
      customLoopFuel arrivals time windowSize fuel (windowStart + windowSize / 10) m2
    else maxRate

/-- Number of iterations the Custom envelope loop performs from a given
window start: the least k with start + k*(windowSize/10) reaching time. -/
def customSteps (time windowStart windowSize : ℚ) : ℕ :=
  (⌈(time - windowStart) / (windowSize / 10)⌉).toNat

/-- NetworkEnvelope.get_max_request_rate of custom_autoscaler.py: guard
non-positive window, prune below time - look_back_time, return 0 on an
empty or cold (last retained timestamp below cutoff) log; otherwise run
the sliding loop from cutoff in increments of window_size/10.
Returns the rate together with the mutated arrival log. -/
def customMaxRate (arrivals : List (ℚ × ℚ)) (time windowSize lookBackTime : ℚ) :
    ℚ × List (ℚ × ℚ) :=
  if windowSize ≤ 0 then (0, arrivals)
  else
    let cutoff := time - lookBackTime
    let kept := pruneArrivals arrivals cutoff
    if kept.isEmpty then (0, kept)
    else if (kept.getLastD (0, 0)).1 < cutoff then (0, kept)
    else
      (customLoopFuel kept time windowSize (customSteps time cutoff windowSize) cutoff 0,
       kept)

/-- A batch entity: optional scheduling and completion timestamps and the
per-request token counts. -/
structure Batch where
  scheduledAt : Option ℚ
  completedAt : Option ℚ
  numTokens : List ℤ
  deriving DecidableEq

/-- The exponential-moving-average update of on_batch_end, identical in
InferlineAutoscaler and CustomAutoscaler: ignore the batch when a
timestamp is absent, the execution time is non-positive or the total
token count is non-positive; otherwise blend the batch throughput into
the estimate with weight alpha. -/
def emaOnBatchEnd (alpha throughput : ℚ) (b : Batch) : ℚ :=
  match b.scheduledAt, b.completedAt with
  | some scheduledAt, some completedAt =>
    let executionTime := completedAt - scheduledAt
    if executionTime ≤ 0 then throughput
    else
      let totalTokens := b.numTokens.sum
      if totalTokens ≤ 0 then throughput
      else
        let batchThroughput := (totalTokens : ℚ) / executionTime
        alpha * batchThroughput + (1 - alpha) * throughput
  | _, _ => throughput

/-- Configuration of InferlineAutoscaler (fields read by the embedded
methods). -/
structure InferlineConfig where
  minWindowSizeScaleUp : ℚ
  minWindowSizeScaleDown : ℚ
  lookBackTimeScaleUp : ℚ
  lookBackTimeScaleDown : ℚ
  stabilizationDelay : ℚ
  throughputAlpha : ℚ
  deriving DecidableEq

/-- Mutable state of InferlineAutoscaler, including the base-class fields
it reads (live replica count and pending scale counters) and its
envelope's arrival log.  last_scale_up_time is initially -infinity,
embedded as none. -/
structure InferlineState where
  replicaTokenThroughput : ℚ
  lastScaleUpTime : Option ℚ
  arrivals : List (ℚ × ℚ)
  numReplicas : ℤ
  numPendingScaleUps : ℤ
  numPendingScaleDowns : ℤ
  deriving DecidableEq

/-- InferlineAutoscaler.on_batch_end: only the throughput EMA changes. -/
def inferlineOnBatchEnd (cfg : InferlineConfig) (s : InferlineState) (b : Batch) :
    InferlineState :=
  { s with replicaTokenThroughput :=
      emaOnBatchEnd cfg.throughputAlpha s.replicaTokenThroughput b }

/-- InferlineAutoscaler.tune: query the envelope for the scale-up and
scale-down demand (each query prunes the log), compute the effective
replica count, check scale-up first (ceil(demand/throughput) above the
effective count returns the excess and stamps last_scale_up_time), then
check scale-down gated by the stabilization delay, with the target
clamped to at least one replica. -/
def inferlineTune (cfg : InferlineConfig) (s : InferlineState) (time : ℚ) :
    ℤ × InferlineState :=
  let r1 := inferlineMaxRate s.arrivals time cfg.minWindowSizeScaleUp cfg.lookBackTimeScaleUp
  let r2 := inferlineMaxRate r1.2 time cfg.minWindowSizeScaleDown cfg.lookBackTimeScaleDown
  let s2 := { s with arrivals := r2.2 }
  let currentReplicas := s.numReplicas + s.numPendingScaleUps - s.numPendingScaleDowns
  let upResult : Option ℤ :=
    if 0 < s.replicaTokenThroughput then
      let targetUp := ⌈r1.1 / s.replicaTokenThroughput⌉
      if currentReplicas < targetUp then some (targetUp - currentReplicas) else none
    else none
  match upResult with
  | some d => (d, { s2 with lastScaleUpTime := some time })
  | none =>
    let canScaleDown : Bool :=
      match s.lastScaleUpTime with
      | none => true
      | some t => decide (cfg.stabilizationDelay ≤ time - t)
    if canScaleDown ∧ 0 < s.replicaTokenThroughput then
      let targetDown := max 1 ⌈r2.1 / s.replicaTokenThroughput⌉
      if targetDown < currentReplicas then (targetDown - currentReplicas, s2)
      else (0, s2)
    else (0, s2)

/-- Configuration of CustomAutoscaler as materialized by
init_service_level (one record per service level). -/
structure CustomConfig where
  lookBackTimeScaleUp : ℚ
  lookBackTimeScaleDown : ℚ
  minWindowSizeScaleUp : ℚ
  minWindowSizeScaleDown : ℚ
  stabilizationDelay : ℚ
  throughputAlpha : ℚ
  scaleUpThreshold : ℚ
  scaleDownThreshold : ℚ
  minReplicas : ℤ
  maxScalePerDecision : ℤ
  deriving DecidableEq

/-- CustomAutoscaler.init_service_level: the three service-level presets
(an unrecognized level falls back to the level-2 values). -/
def serviceLevelConfig (serviceLevel : ℤ) : CustomConfig :=
  if serviceLevel = 1 then
    { lookBackTimeScaleUp := 70, lookBackTimeScaleDown := 50
      minWindowSizeScaleUp := 35, minWindowSizeScaleDown := 25
      stabilizationDelay := 15, throughputAlpha := 1/5
      scaleUpThreshold := 21/20, scaleDownThreshold := 17/20
      minReplicas := 1, maxScalePerDecision := 2 }
  else if serviceLevel = 3 then
    { lookBackTimeScaleUp := 50, lookBackTimeScaleDown := 120
      minWindowSizeScaleUp := 20, minWindowSizeScaleDown := 45
      stabilizationDelay := 50, throughputAlpha := 2/5
      scaleUpThreshold := 4/5, scaleDownThreshold := 11/20
      minReplicas := 1, maxScalePerDecision := 3 }
  else
    { lookBackTimeScaleUp := 70, lookBackTimeScaleDown := 80
      minWindowSizeScaleUp := 30, minWindowSizeScaleDown := 35
      stabilizationDelay := 30, throughputAlpha := 3/10
      scaleUpThreshold := 11/10, scaleDownThreshold := 7/10
      minReplicas := 1, maxScalePerDecision := 2 }

/-- Mutable state of CustomAutoscaler (adds last_scale_down_time). -/
structure CustomState where
  replicaTokenThroughput : ℚ
  lastScaleUpTime : Option ℚ
  lastScaleDownTime : Option ℚ
  arrivals : List (ℚ × ℚ)
  numReplicas : ℤ
  numPendingScaleUps : ℤ
  numPendingScaleDowns : ℤ
  deriving DecidableEq

/-- CustomAutoscaler.on_batch_end: only the throughput EMA changes. -/
def customOnBatchEnd (cfg : CustomConfig) (s : CustomState) (b : Batch) : CustomState :=
  { s with replicaTokenThroughput :=
      emaOnBatchEnd cfg.throughputAlpha s.replicaTokenThroughput b }

/-- CustomAutoscaler.tune: query both demands (each query prunes the
log), return 0 on a non-positive throughput estimate, check scale-up
first (demand above capacity * scale_up_threshold; the positive delta is
capped by max_scale_per_decision and stamps last_scale_up_time), then
scale-down gated by both cooldowns (stabilization_delay since the last
scale-up, half of it since the last scale-down) and the under-provision
threshold, with the target clamped to at least min_replicas and the
negative delta capped by max_scale_per_decision. -/
def customTune (cfg : CustomConfig) (s : CustomState) (time : ℚ) : ℤ × CustomState :=
  let r1 := customMaxRate s.arrivals time cfg.minWindowSizeScaleUp cfg.lookBackTimeScaleUp
  let r2 := customMaxRate r1.2 time cfg.minWindowSizeScaleDown cfg.lookBackTimeScaleDown
  let s2 := { s with arrivals := r2.2 }
  let currentReplicas := s.numReplicas + s.numPendingScaleUps - s.numPendingScaleDowns
  if s.replicaTokenThroughput ≤ 0 then (0, s2)
  else
    let currentCapacity := (currentReplicas : ℚ) * s.replicaTokenThroughput
    let upResult : Option ℤ :=
      if currentCapacity * cfg.scaleUpThreshold < r1.1 then
        let targetReplicas := ⌈r1.1 / s.replicaTokenThroughput⌉
        let scaleUpNeeded := min (targetReplicas - currentReplicas) cfg.maxScalePerDecision
        if 0 < scaleUpNeeded then some scaleUpNeeded else none
      else none
    match upResult with
    | some d => (d, { s2 with lastScaleUpTime := some time })
    | none =>
      let okUp : Bool :=
        match s.lastScaleUpTime with
        | none => true
        | some t => decide (cfg.stabilizationDelay ≤ time - t)
      let okDown : Bool :=
        match s.lastScaleDownTime with
        | none => true
        | some t => decide (cfg.stabilizationDelay / 2 ≤ time - t)
      if okUp ∧ okDown ∧ r2.1 < currentCapacity * cfg.scaleDownThreshold then
        let targetReplicas := max ⌈r2.1 / s.replicaTokenThroughput⌉ cfg.minReplicas
        let scaleDownNeeded := min (currentReplicas - targetReplicas) cfg.maxScalePerDecision
        if 0 < scaleDownNeeded then (-scaleDownNeeded, { s2 with lastScaleDownTime := some time })
        else (0, s2)
      else (0, s2)

/-- The window-scanning scheme the claim sentence ascribes to
get_max_request_rate, as a definition of its own for comparison with the
code: exactly 11 candidate window starts at fixed increments of
windowSize/10 from now - lookback, each window truncated at now, each
rate divided by the actual truncated duration, keeping the maximum. -/
def claimEnvelopeRate (arrivals : List (ℚ × ℚ)) (time windowSize lookBackTime : ℚ) : ℚ :=
  let cutoff := time - lookBackTime
  ((List.range 11).map (fun k => cutoff + (k : ℚ) * (windowSize / 10))).foldl
    (fun acc ws =>
      let we := min (ws + windowSize) time
      if 0 < we - ws then max acc (tokensInWindow arrivals ws we / (we - ws)) else acc) 0

/-- The step function of minScan, named for reasoning. -/
def minScanStep {α : Type} (load : α → ℕ) (acc : Option (ℕ × α)) (x : α) :
    Option (ℕ × α) :=
  match acc with
  | none => some (load x, x)
  | some mb => if load x < mb.1 then some (load x, x) else some mb

theorem minScan_eq_foldl {α : Type} (load : α → ℕ) (l : List α) :
    minScan load l = l.foldl (minScanStep load) none := rfl

theorem minScanStep_foldl_const {α : Type} (load : α → ℕ) (l : List α) (m : ℕ) (b : α)
    (h : ∀ y ∈ l, ¬ load y < m) :
    l.foldl (minScanStep load) (some (m, b)) = some (m, b) := by
  induction l with
  | nil => rfl
  | cons x xs ih =>
    have hx : ¬ load x < m := h x (by simp)
    simp only [List.foldl_cons, minScanStep, if_neg hx]
    exact ih fun y hy => h y (by simp [hy])

theorem minScanStep_foldl_form {α : Type} (load : α → ℕ) (l : List α) :
    ∀ b : α, ∃ c, (c = b ∨ c ∈ l) ∧
      l.foldl (minScanStep load) (some (load b, b)) = some (load c, c) ∧
      load c ≤ load b ∧ ∀ y ∈ l, load c ≤ load y := by
  induction l with
  | nil => exact fun b => ⟨b, Or.inl rfl, rfl, le_refl _, by simp⟩
  | cons x xs ih =>
    intro b
    by_cases hx : load x < load b
    · obtain ⟨c, hmem, heq, hle, hall⟩ := ih x
      refine ⟨c, ?_, ?_, ?_, ?_⟩
      · rcases hmem with h | h
        · exact Or.inr (by simp [h])
        · exact Or.inr (by simp [h])
      · simpa only [List.foldl_cons, minScanStep, if_pos hx] using heq
      · exact le_of_lt (lt_of_le_of_lt hle hx)
      · intro y hy
        rcases List.mem_cons.mp hy with h | h
        · exact h ▸ hle
        · exact hall y h
    · obtain ⟨c, hmem, heq, hle, hall⟩ := ih b
      refine ⟨c, ?_, ?_, hle, ?_⟩
      · rcases hmem with h | h
        · exact Or.inl h
        · exact Or.inr (by simp [h])
      · simpa only [List.foldl_cons, minScanStep, if_neg hx] using heq
      · intro y hy
        rcases List.mem_cons.mp hy with h | h
        · exact h ▸ le_trans hle (Nat.le_of_not_lt hx)
        · exact hall y h

theorem minScan_some {α : Type} (load : α → ℕ) (l : List α) (mb : ℕ × α)
    (h : minScan load l = some mb) :
    mb.2 ∈ l ∧ mb.1 = load mb.2 ∧ ∀ y ∈ l, load mb.2 ≤ load y := by
  cases l with
  | nil => simp [minScan] at h
  | cons x xs =>
    obtain ⟨c, hmem, heq, hle, hall⟩ := minScanStep_foldl_form load xs x
    rw [minScan_eq_foldl] at h
    simp only [List.foldl_cons, minScanStep] at h
    rw [heq] at h
    cases h
    refine ⟨?_, rfl, ?_⟩
    · rcases hmem with h | h
      · simp [h]
      · simp [h]
    · intro y hy
      rcases List.mem_cons.mp hy with h | h
      · exact h ▸ hle
      · exact hall y h

theorem minScan_eq_none {α : Type} (load : α → ℕ) (l : List α) :
    minScan load l = none ↔ l = [] := by
  constructor
  · intro h
    cases l with
    | nil => rfl
    | cons x xs =>
      obtain ⟨c, _, heq, _, _⟩ := minScanStep_foldl_form load xs x
      rw [minScan_eq_foldl] at h
      simp only [List.foldl_cons, minScanStep] at h
      rw [heq] at h
      cases h
  · intro h; subst h; rfl

theorem minScan_first_min {α : Type} (load : α → ℕ) (pre suf : List α) (b : α)
    (hpre : ∀ y ∈ pre, load b < load y) (hsuf : ∀ y ∈ suf, load b ≤ load y) :
    minScan load (pre ++ b :: suf) = some (load b, b) := by
  rw [minScan_eq_foldl, List.foldl_append]
  have hstep : (b :: suf).foldl (minScanStep load) (pre.foldl (minScanStep load) none) =
      suf.foldl (minScanStep load) (some (load b, b)) := by
    cases hp : pre with
    | nil => simp [minScanStep]
    | cons p ps =>
      obtain ⟨c, hmem, heq, _, _⟩ := minScanStep_foldl_form load ps p
      have hcpre : c ∈ pre := by
        rcases hmem with h | h
        · simp [hp, h]
        · simp [hp, h]
      have hbc : load b < load c := hpre c hcpre
      simp only [List.foldl_cons, minScanStep, heq, if_pos hbc]
  rw [hstep]
  exact minScanStep_foldl_const load suf (load b) b
    (fun y hy => Nat.not_lt.mpr (hsuf y hy))

theorem foldl_skip_eq_foldl_filter {α β : Type} (p : α → Bool) (f : β → α → β) :
    ∀ (l : List α) (b : β),
      l.foldl (fun acc x => if p x then f acc x else acc) b = (l.filter p).foldl f b := by
  intro l
  induction l with
  | nil => intro b; rfl
  | cons x xs ih =>
    intro b
    simp only [List.foldl_cons, List.filter_cons]
    cases h : p x <;> simp [h, ih]

theorem rrAvailableIds_not_draining (s : RoundRobinState) (x : ℕ)
    (hx : x ∈ rrAvailableIds s) : x ∉ s.replicasToFree := by
  have hx2 : x ∈ (s.replicaSchedulers.map Prod.fst).filter
      (fun replicaId => !(checkReplicaToFree s.replicasToFree replicaId)) :=
    (List.perm_insertionSort _ _).mem_iff.mp hx
  have := (List.mem_filter.mp hx2).2
  simpa [checkReplicaToFree] using this

theorem lorAvailableIds_not_draining (s : LORState) (x : ℕ)
    (hx : x ∈ lorAvailableIds s) : x ∉ s.replicasToFree := by
  have := (List.mem_filter.mp hx).2
  simpa [checkReplicaToFree] using this

theorem rrAssignLoop_fst_mem (cands : List ℕ) (hc : cands ≠ []) :
    ∀ (q : List Request) (counter : ℕ) (p : ℕ × Request),
      p ∈ (rrAssignLoop cands q counter).1 → p.1 ∈ cands := by
  intro q
  induction q with
  | nil => intro counter p hp; simp [rrAssignLoop] at hp
  | cons r rest ih =>
    intro counter p hp
    simp only [rrAssignLoop, List.mem_cons] at hp
    rcases hp with h | h
    · subst h
      have hlen : counter % cands.length < cands.length :=
        Nat.mod_lt _ (List.length_pos.mpr hc)
      rw [List.getD_eq_getElem cands 0 hlen]
      exact List.getElem_mem hlen
    · exact ih (counter + 1) p h

theorem rrAvailableIds_eq_nil_of_all_draining (s : RoundRobinState)
    (h : ∀ k ∈ s.replicaSchedulers.map Prod.fst, k ∈ s.replicasToFree) :
    rrAvailableIds s = [] := by
  have hf : (s.replicaSchedulers.map Prod.fst).filter
      (fun replicaId => !(checkReplicaToFree s.replicasToFree replicaId)) = [] := by
    apply List.filter_eq_nil_iff.mpr
    intro a ha
    simp [checkReplicaToFree, h a ha]
  rw [rrAvailableIds, hf]
  rfl

theorem lorAvailableIds_eq_nil_of_all_draining (s : LORState)
    (h : ∀ k ∈ s.replicaSchedulers.map Prod.fst, k ∈ s.replicasToFree) :
    lorAvailableIds s = [] := by
  apply List.filter_eq_nil_iff.mpr
  intro a ha
  simp [checkReplicaToFree, h a ha]

theorem sortRequests_perm (q : List Request) : (sortRequests q).Perm q :=
  List.perm_insertionSort _ q

/-- Claim C1: once a replica id is in the draining set, no schedule() call
of either policy returns an assignment to it; and when every known replica
is draining, schedule() returns an empty list and leaves the queue
contents unchanged (the base class may still reorder it by arrival time). -/
theorem c1_draining_exclusion (rr : RoundRobinState) (lor : LORState) (replicaId : ℕ) :
    (replicaId ∈ rr.replicasToFree → ∀ p ∈ (rrSchedule rr).1, p.1 ≠ replicaId) ∧
    ((∀ k ∈ rr.replicaSchedulers.map Prod.fst, k ∈ rr.replicasToFree) →
      (rrSchedule rr).1 = [] ∧ ((rrSchedule rr).2.requestQueue).Perm rr.requestQueue) ∧
    (replicaId ∈ lor.replicasToFree → ∀ p ∈ (lorSchedule lor).1, p.1 ≠ replicaId) ∧
    ((∀ k ∈ lor.replicaSchedulers.map Prod.fst, k ∈ lor.replicasToFree) →
      (lorSchedule lor).1 = [] ∧ ((lorSchedule lor).2.requestQueue).Perm lor.requestQueue) := by
  refine ⟨?_, ?_, ?_, ?_⟩
  · intro hid p hp heq
    by_cases he : (rrAvailableIds rr).isEmpty
    · simp only [rrSchedule, if_pos he] at hp
      exact absurd hp (List.not_mem_nil p)
    · simp only [rrSchedule, if_neg he] at hp
      have hc : rrAvailableIds rr ≠ [] := by
        simpa [List.isEmpty_iff] using he
      have hm := rrAssignLoop_fst_mem (rrAvailableIds rr) hc _ _ p hp
      exact rrAvailableIds_not_draining rr p.1 hm (heq ▸ hid)
  · intro hall
    have he : (rrAvailableIds rr).isEmpty := by
      simp [List.isEmpty_iff, rrAvailableIds_eq_nil_of_all_draining rr hall]
    simp only [rrSchedule, if_pos he]
    exact ⟨trivial, sortRequests_perm rr.requestQueue⟩
  · intro hid p hp heq
    by_cases he : (lorAvailableIds lor).isEmpty
    · simp only [lorSchedule, if_pos he] at hp
      exact absurd hp (List.not_mem_nil p)
    · simp only [lorSchedule, if_neg he] at hp
      obtain ⟨r, _, hr⟩ := List.mem_filterMap.mp hp
      cases hscan : minScan (loadOf lor.replicaSchedulers) (lorAvailableIds lor) with
      | none => rw [hscan] at hr; cases hr
      | some mb =>
        rw [hscan] at hr
        have hmem := (minScan_some _ _ _ hscan).1
        cases hr
        have h2 : mb.2 = replicaId := by simpa using heq
        exact lorAvailableIds_not_draining lor mb.2 hmem (h2 ▸ hid)
  · intro hall
    have he : (lorAvailableIds lor).isEmpty := by
      simp [List.isEmpty_iff, lorAvailableIds_eq_nil_of_all_draining lor hall]
    simp only [lorSchedule, if_pos he]
    exact ⟨trivial, sortRequests_perm lor.requestQueue⟩

/-- Claim C5: in one LOR schedule() call every queued request is assigned
to the non-draining replica whose outstanding load is minimal in the call
time snapshot, ties broken by first-seen order in the candidate list, and
since the snapshot is never updated within the call, all requests of the
call land on that same replica. -/
theorem c5_lor_greedy_snapshot (s : LORState) (b : ℕ) (pre suf : List ℕ)
    (havail : lorAvailableIds s = pre ++ b :: suf)
    (hpre : ∀ x ∈ pre, loadOf s.replicaSchedulers b < loadOf s.replicaSchedulers x)
    (hsuf : ∀ x ∈ suf, loadOf s.replicaSchedulers b ≤ loadOf s.replicaSchedulers x) :
    (lorSchedule s).1 = (sortRequests s.requestQueue).map (fun r => (b, r)) := by
  have hne : ¬ (lorAvailableIds s).isEmpty := by
    rw [havail]
    simp [List.isEmpty_iff]
  simp only [lorSchedule, if_neg hne]
  have hscan : minScan (loadOf s.replicaSchedulers) (lorAvailableIds s) =
      some (loadOf s.replicaSchedulers b, b) := by
    rw [havail]
    exact minScan_first_min _ pre suf b hpre hsuf
  rw [hscan]
  simp only [Option.map_some']
  induction sortRequests s.requestQueue with
  | nil => rfl
  | cons r q ih => simp [ih]

theorem lorMark_fold_general (toFree : List ℕ) :
    ∀ (l : List (ℕ × ReplicaLoad)) (acc : Option (ℕ × (ℕ × ReplicaLoad))),
      l.foldl (fun acc2 p =>
        if checkReplicaToFree toFree p.1 then acc2
        else
          match acc2 with
          | none => some (outstandingRequests p.2, p.1)
          | some mb =>
            if outstandingRequests p.2 < mb.1 then some (outstandingRequests p.2, p.1)
            else some mb) (Option.map (fun mb => (mb.1, mb.2.1)) acc)
      = Option.map (fun mb => (mb.1, mb.2.1))
          ((l.filter (fun p => !(checkReplicaToFree toFree p.1))).foldl
            (minScanStep (fun p : ℕ × ReplicaLoad => outstandingRequests p.2)) acc) := by
  intro l
  induction l with
  | nil => intro acc; rfl
  | cons x xs ih =>
    intro acc
    simp only [List.foldl_cons, List.filter_cons]
    rcases Bool.eq_false_or_eq_true (checkReplicaToFree toFree x.1) with hc | hc
    · simpa [hc] using ih acc
    · cases acc with
      | none =>
        simp only [hc, minScanStep]
        simpa using ih (some (outstandingRequests x.2, x))
      | some mb =>
        by_cases hlt : outstandingRequests x.2 < mb.1
        · simp only [hc, minScanStep, hlt]
          simpa [minScanStep, hlt] using ih (some (outstandingRequests x.2, x))
        · simp only [hc, minScanStep, hlt]
          simpa [minScanStep, hlt] using ih (some mb)

theorem lorMark_fold_filter (toFree : List ℕ) (l : List (ℕ × ReplicaLoad)) :
    l.foldl (fun acc2 p =>
      if checkReplicaToFree toFree p.1 then acc2
      else
        match acc2 with
        | none => some (outstandingRequests p.2, p.1)
        | some mb =>
          if outstandingRequests p.2 < mb.1 then some (outstandingRequests p.2, p.1)
          else some mb) none
    = Option.map (fun mb => (mb.1, mb.2.1))
        (minScan (fun p : ℕ × ReplicaLoad => outstandingRequests p.2)
          (l.filter (fun p => !(checkReplicaToFree toFree p.1)))) := by
  have h := lorMark_fold_general toFree l none
  simpa [minScan_eq_foldl] using h

theorem mem_setAdd (l : List ℕ) (b x : ℕ) : x ∈ setAdd l b ↔ x ∈ l ∨ x = b := by
  unfold setAdd
  by_cases hc : l.contains b
  · have hb : b ∈ l := by simpa using hc
    simp only [if_pos hc]
    constructor
    · exact fun h => Or.inl h
    · rintro (h | h)
      · exact h
      · exact h ▸ hb
  · have hb : b ∉ l := by simpa using hc
    simp [hb]

/-- Claim C9: mark_replica_to_free selects, among replicas not yet
draining, the first one of minimum outstanding load, adds exactly it to
the draining set and returns its id; when every replica is draining it
returns none and leaves the state unchanged (so a repeated call selects
the minimum among the remainder). -/
theorem c9_lor_free_selection (s s2 : LORState) (b : ℕ) (bl : ReplicaLoad)
    (pre suf : List (ℕ × ReplicaLoad))
    (hsplit : s.replicaSchedulers.filter
        (fun p => !(checkReplicaToFree s.replicasToFree p.1)) = pre ++ (b, bl) :: suf)
    (hpre : ∀ p ∈ pre, outstandingRequests bl < outstandingRequests p.2)
    (hsuf : ∀ p ∈ suf, outstandingRequests bl ≤ outstandingRequests p.2) :
    ((lorMarkReplicaToFree s).1 = some b ∧
     (lorMarkReplicaToFree s).2.replicasToFree = setAdd s.replicasToFree b ∧
     (∀ x : ℕ, x ∈ (lorMarkReplicaToFree s).2.replicasToFree ↔
        x ∈ s.replicasToFree ∨ x = b)) ∧
    ((∀ k ∈ s2.replicaSchedulers.map Prod.fst, k ∈ s2.replicasToFree) →
      lorMarkReplicaToFree s2 = (none, s2)) := by
  constructor
  · have hscan : minScan (fun p : ℕ × ReplicaLoad => outstandingRequests p.2)
        (s.replicaSchedulers.filter
          (fun p => !(checkReplicaToFree s.replicasToFree p.1)))
        = some (outstandingRequests bl, (b, bl)) := by
      rw [hsplit]
      exact minScan_first_min _ pre suf (b, bl) hpre hsuf
    have hres : lorMarkReplicaToFree s =
        (some b, { s with replicasToFree := setAdd s.replicasToFree b }) := by
      simp only [lorMarkReplicaToFree, lorMark_fold_filter, hscan, Option.map_some']
    rw [hres]
    exact ⟨rfl, rfl, fun x => mem_setAdd s.replicasToFree b x⟩
  · intro hall
    have hfil : s2.replicaSchedulers.filter
        (fun p => !(checkReplicaToFree s2.replicasToFree p.1)) = [] := by
      apply List.filter_eq_nil_iff.mpr
      intro p hp
      have : p.1 ∈ s2.replicasToFree := hall p.1 (List.mem_map_of_mem Prod.fst hp)
      simp [checkReplicaToFree, this]
    simp only [lorMarkReplicaToFree, lorMark_fold_filter, hfil]
    rfl

/-- Three replicas with loads 8, 3, 6 (queue length, allocation count). -/
def threeReplicas : List (ℕ × ReplicaLoad) :=
  [(0, ⟨8, 0⟩), (1, ⟨3, 0⟩), (2, ⟨6, 0⟩)]

/-- Five requests queued together. -/
def fiveRequests : List Request :=
  [⟨0, 10, 20⟩, ⟨1, 10, 20⟩, ⟨2, 10, 20⟩, ⟨3, 10, 20⟩, ⟨4, 10, 20⟩]

def rrStateOneDraining : RoundRobinState :=
  { requestQueue := fiveRequests, replicaSchedulers := threeReplicas
    replicasToFree := [1], requestCounter := 0 }

def rrStateAllDraining : RoundRobinState :=
  { requestQueue := fiveRequests, replicaSchedulers := threeReplicas
    replicasToFree := [0, 1, 2], requestCounter := 0 }

def lorStateOneDraining : LORState :=
  { requestQueue := fiveRequests, replicaSchedulers := threeReplicas
    replicasToFree := [1] }

def lorStateAllDraining : LORState :=
  { requestQueue := fiveRequests, replicaSchedulers := threeReplicas
    replicasToFree := [0, 1, 2] }

def lorStateFresh : LORState :=
  { requestQueue := fiveRequests, replicaSchedulers := threeReplicas
    replicasToFree := [] }

theorem c1_draining_exclusion_witness :
    (∀ p ∈ (rrSchedule rrStateOneDraining).1, p.1 ≠ 1) ∧
    ((rrSchedule rrStateAllDraining).1 = [] ∧
      ((rrSchedule rrStateAllDraining).2.requestQueue).Perm rrStateAllDraining.requestQueue) ∧
    (∀ p ∈ (lorSchedule lorStateOneDraining).1, p.1 ≠ 1) ∧
    ((lorSchedule lorStateAllDraining).1 = [] ∧
      ((lorSchedule lorStateAllDraining).2.requestQueue).Perm lorStateAllDraining.requestQueue) :=
  ⟨(c1_draining_exclusion rrStateOneDraining lorStateOneDraining 1).1 (by decide),
   (c1_draining_exclusion rrStateAllDraining lorStateAllDraining 1).2.1 (by decide),
   (c1_draining_exclusion rrStateOneDraining lorStateOneDraining 1).2.2.1 (by decide),
   (c1_draining_exclusion rrStateAllDraining lorStateAllDraining 1).2.2.2 (by decide)⟩

theorem c5_lor_greedy_snapshot_witness :
    (lorSchedule lorStateFresh).1 =
      (sortRequests lorStateFresh.requestQueue).map (fun r => (1, r)) :=
  c5_lor_greedy_snapshot lorStateFresh 1 [0] [2] (by decide) (by decide) (by decide)

theorem c9_lor_free_selection_witness :
    (lorMarkReplicaToFree lorStateFresh).1 = some 1 ∧
    (lorMarkReplicaToFree { lorStateFresh with replicasToFree := [1] }).1 = some 2 ∧
    lorMarkReplicaToFree lorStateAllDraining = (none, lorStateAllDraining) :=
  ⟨(c9_lor_free_selection lorStateFresh lorStateAllDraining 1 ⟨3, 0⟩
      [(0, ⟨8, 0⟩)] [(2, ⟨6, 0⟩)] (by decide) (by decide) (by decide)).1.1,
   (c9_lor_free_selection { lorStateFresh with replicasToFree := [1] } lorStateAllDraining 2 ⟨6, 0⟩
      [(0, ⟨8, 0⟩)] [] (by decide) (by decide) (by decide)).1.1,
   (c9_lor_free_selection lorStateFresh lorStateAllDraining 1 ⟨3, 0⟩
      [(0, ⟨8, 0⟩)] [(2, ⟨6, 0⟩)] (by decide) (by decide) (by decide)).2 (by decide)⟩

theorem add_mod_inj (c N x y : ℕ) (hx : x < N) (hy : y < N)
    (h : (c + x) % N = (c + y) % N) : x = y := by
  have hm : c + x ≡ c + y [MOD N] := h
  have hxy : x ≡ y [MOD N] := Nat.ModEq.add_left_cancel' c hm
  have := hxy
  unfold Nat.ModEq at this
  rwa [Nat.mod_eq_of_lt hx, Nat.mod_eq_of_lt hy] at this

theorem add_mod_hit (c N j : ℕ) (hN : 0 < N) (hj : j < N) :
    (c + (j + (N - c % N)) % N) % N = j := by
  have haN : c % N < N := Nat.mod_lt _ hN
  have h1 : (c + (j + (N - c % N)) % N) % N
      = (c % N + (j + (N - c % N)) % N) % N := by
    conv_lhs => rw [Nat.add_mod]
    rw [Nat.mod_mod_of_dvd _ dvd_rfl]
  have h2 : (c % N + (j + (N - c % N)) % N) % N
      = (c % N + (j + (N - c % N))) % N := by
    conv_rhs => rw [Nat.add_mod]
    rw [Nat.mod_mod_of_dvd _ dvd_rfl]
  have h3 : c % N + (j + (N - c % N)) = j + N := by omega
  rw [h1, h2, h3, Nat.add_mod_right, Nat.mod_eq_of_lt hj]

theorem filter_unique_singleton (p : ℕ → Bool) (a : ℕ) :
    ∀ (l : List ℕ), l.Nodup → a ∈ l → p a = true →
      (∀ x ∈ l, p x = true → x = a) → l.filter p = [a] := by
  intro l
  induction l with
  | nil => intro _ ha; exact absurd ha (List.not_mem_nil a)
  | cons x xs ih =>
    intro hnd ha hpa huniq
    have hnd2 := List.nodup_cons.mp hnd
    rcases List.mem_cons.mp ha with hax | hax
    · subst hax
      have hrest : xs.filter p = [] := by
        apply List.filter_eq_nil_iff.mpr
        intro y hy hpy
        exact absurd (huniq y (List.mem_cons_of_mem _ hy) hpy ▸ hy) hnd2.1
      rw [List.filter_cons, if_pos hpa, hrest]
    · have hpx : p x = false := by
        rcases Bool.eq_false_or_eq_true (p x) with h | h
        · have := huniq x (List.mem_cons_self x xs) h
          subst this
          exact absurd hax hnd2.1
        · exact h
      rw [List.filter_cons, if_neg (by simp [hpx])]
      exact ih hnd2.2 hax hpa (fun y hy => huniq y (List.mem_cons_of_mem _ hy))

theorem countP_range_mod_one (N j c : ℕ) (hN : 0 < N) (hj : j < N) :
    (List.range N).countP (fun i => decide ((c + i) % N = j)) = 1 := by
  rw [List.countP_eq_length_filter]
  rw [filter_unique_singleton _ ((j + (N - c % N)) % N) (List.range N)
    (List.nodup_range N)
    (List.mem_range.mpr (Nat.mod_lt _ hN))
    (decide_eq_true (add_mod_hit c N j hN hj))
    (fun x hx hpx =>
      add_mod_inj c N x _ (List.mem_range.mp hx) (Nat.mod_lt _ hN)
        ((of_decide_eq_true hpx).trans (add_mod_hit c N j hN hj).symm))]
  rfl

theorem countP_range_mod (N j c : ℕ) (hN : 0 < N) (hj : j < N) :
    ∀ K : ℕ, (List.range (K * N)).countP (fun i => decide ((c + i) % N = j)) = K := by
  intro K
  induction K with
  | zero => simp
  | succ K ih =>
    rw [Nat.succ_mul, List.range_add, List.countP_append, ih, List.countP_map]
    have hc : (List.range N).countP
        ((fun i => decide ((c + i) % N = j)) ∘ (fun i => K * N + i))
        = (List.range N).countP (fun i => decide ((c + i) % N = j)) := by
      apply List.countP_congr
      intro a _
      simp only [Function.comp_apply, decide_eq_decide]
      rw [show c + (K * N + a) = (c + a) + K * N from by omega,
          Nat.add_mul_mod_self_right]
    rw [hc, countP_range_mod_one N j c hN hj]

theorem rrAssignLoop_eq (cands : List ℕ) :
    ∀ (q : List Request) (counter : ℕ),
      rrAssignLoop cands q counter =
        (((List.range q.length).map (fun i =>
            cands.getD ((counter + i) % cands.length) 0)).zip q,
          counter + q.length) := by
  intro q
  induction q with
  | nil => intro counter; simp [rrAssignLoop]
  | cons r rest ih =>
    intro counter
    have hfun : (List.range rest.length).map
        ((fun i => cands.getD ((counter + i) % cands.length) 0) ∘ Nat.succ)
        = (List.range rest.length).map
          (fun i => cands.getD ((counter + 1 + i) % cands.length) 0) := by
      apply List.map_congr_left
      intro a _
      have h : counter + Nat.succ a = counter + 1 + a := by omega
      simp [Function.comp_apply, h]
    simp only [rrAssignLoop, ih (counter + 1), List.length_cons,
      List.range_succ_eq_map, List.map_cons, List.map_map, hfun,
      List.zip_cons_cons, Nat.add_zero, Prod.mk.injEq]
    exact ⟨trivial, by omega⟩

/-- Claim C4: round-robin builds its candidate list as the known replica
ids minus the draining set sorted ascending, keeps a counter that a
schedule() call never resets (it advances by one per request), assigns
the i-th request in arrival order to candidates[(counter + i) % N], and
hence distributes K*N requests of one call as exactly K per replica in
strict cyclic order. -/
theorem c4_round_robin_fairness (s : RoundRobinState) (K : ℕ)
    (hnodup : (s.replicaSchedulers.map Prod.fst).Nodup)
    (hne : rrAvailableIds s ≠ []) :
    (rrSchedule s).2.requestCounter = s.requestCounter + s.requestQueue.length ∧
    (rrSchedule s).1 =
      ((List.range (sortRequests s.requestQueue).length).map (fun i =>
        (rrAvailableIds s).getD
          ((s.requestCounter + i) % (rrAvailableIds s).length) 0)).zip
        (sortRequests s.requestQueue) ∧
    (rrAvailableIds s).Sorted (· ≤ ·) ∧
    (s.requestQueue.length = K * (rrAvailableIds s).length →
      ∀ replicaId ∈ rrAvailableIds s,
        ((rrSchedule s).1.map Prod.fst).count replicaId = K) := by
  have hemp : ¬ (rrAvailableIds s).isEmpty := by
    simpa [List.isEmpty_iff] using hne
  have hlen : (sortRequests s.requestQueue).length = s.requestQueue.length :=
    (sortRequests_perm s.requestQueue).length_eq
  have hloop := rrAssignLoop_eq (rrAvailableIds s) (sortRequests s.requestQueue)
    s.requestCounter
  have hN : 0 < (rrAvailableIds s).length := List.length_pos.mpr hne
  refine ⟨?_, ?_, ?_, ?_⟩
  · simp only [rrSchedule, if_neg hemp, hloop, hlen]
  · simp only [rrSchedule, if_neg hemp, hloop]
  · exact List.sorted_insertionSort _ _
  · intro hK replicaId hmem
    have havnd : (rrAvailableIds s).Nodup :=
      ((List.perm_insertionSort _ _).nodup_iff).mpr (hnodup.filter _)
    obtain ⟨j, hj, hjeq⟩ := List.mem_iff_getElem.mp hmem
    simp only [rrSchedule, if_neg hemp, hloop]
    rw [List.map_fst_zip _ _ (by simp)]
    rw [List.count_eq_countP, List.countP_map]
    have hpred : ∀ i ∈ List.range (sortRequests s.requestQueue).length,
        (((rrAvailableIds s).getD
           ((s.requestCounter + i) % (rrAvailableIds s).length) 0 == replicaId) = true)
        ↔ (decide ((s.requestCounter + i) % (rrAvailableIds s).length = j) = true) := by
      intro i _
      have hlt : (s.requestCounter + i) % (rrAvailableIds s).length
          < (rrAvailableIds s).length := Nat.mod_lt _ hN
      rw [List.getD_eq_getElem _ _ hlt]
      simp only [beq_iff_eq, decide_eq_true_eq]
      rw [← hjeq]
      exact havnd.getElem_inj_iff
    have hcc : (List.range (sortRequests s.requestQueue).length).countP
        ((fun x => x == replicaId) ∘ fun i =>
          (rrAvailableIds s).getD ((s.requestCounter + i) % (rrAvailableIds s).length) 0)
        = (List.range (sortRequests s.requestQueue).length).countP
          (fun i => decide ((s.requestCounter + i) % (rrAvailableIds s).length = j)) := by
      apply List.countP_congr
      intro i hi
      simp only [Function.comp_apply]
      exact hpred i hi
    rw [hcc, hlen, hK]
    exact countP_range_mod _ j _ hN hj K

/-- Four requests queued together (2 per non-draining replica below). -/
def fourRequests : List Request :=
  [⟨0, 10, 20⟩, ⟨1, 10, 20⟩, ⟨2, 10, 20⟩, ⟨3, 10, 20⟩]

def rrStateFair : RoundRobinState :=
  { requestQueue := fourRequests, replicaSchedulers := threeReplicas
    replicasToFree := [1], requestCounter := 0 }

theorem c4_round_robin_fairness_witness :
    (rrSchedule rrStateFair).2.requestCounter =
      rrStateFair.requestCounter + rrStateFair.requestQueue.length ∧
    (rrAvailableIds rrStateFair).Sorted (· ≤ ·) ∧
    ((rrSchedule rrStateFair).1.map Prod.fst).count 0 = 2 ∧
    ((rrSchedule rrStateFair).1.map Prod.fst).count 2 = 2 :=
  ⟨(c4_round_robin_fairness rrStateFair 2 (by decide) (by decide)).1,
   (c4_round_robin_fairness rrStateFair 2 (by decide) (by decide)).2.2.1,
   (c4_round_robin_fairness rrStateFair 2 (by decide) (by decide)).2.2.2
     (by decide) 0 (by decide),
   (c4_round_robin_fairness rrStateFair 2 (by decide) (by decide)).2.2.2
     (by decide) 2 (by decide)⟩

/-- Claim C7: on_batch_end of both autoscalers ignores batches with a
missing timestamp, non-positive execution time or non-positive total
tokens (no state change at all), and otherwise replaces only the
throughput estimate with alpha * batch_throughput + (1 - alpha) * old. -/
theorem c7_ema_update (cfgI : InferlineConfig) (cfgC : CustomConfig)
    (sI : InferlineState) (sC : CustomState) (b : Batch) (sa ca : ℚ) :
    (inferlineOnBatchEnd cfgI sI b =
      { sI with replicaTokenThroughput :=
          (inferlineOnBatchEnd cfgI sI b).replicaTokenThroughput }) ∧
    (customOnBatchEnd cfgC sC b =
      { sC with replicaTokenThroughput :=
          (customOnBatchEnd cfgC sC b).replicaTokenThroughput }) ∧
    ((b.scheduledAt = none ∨ b.completedAt = none) →
      inferlineOnBatchEnd cfgI sI b = sI ∧ customOnBatchEnd cfgC sC b = sC) ∧
    (b.scheduledAt = some sa → b.completedAt = some ca →
      (ca - sa ≤ 0 ∨ b.numTokens.sum ≤ 0) →
      inferlineOnBatchEnd cfgI sI b = sI ∧ customOnBatchEnd cfgC sC b = sC) ∧
    (b.scheduledAt = some sa → b.completedAt = some ca →
      ¬ ca - sa ≤ 0 → ¬ b.numTokens.sum ≤ 0 →
      (inferlineOnBatchEnd cfgI sI b).replicaTokenThroughput =
        cfgI.throughputAlpha * ((b.numTokens.sum : ℚ) / (ca - sa)) +
          (1 - cfgI.throughputAlpha) * sI.replicaTokenThroughput ∧
      (customOnBatchEnd cfgC sC b).replicaTokenThroughput =
        cfgC.throughputAlpha * ((b.numTokens.sum : ℚ) / (ca - sa)) +
          (1 - cfgC.throughputAlpha) * sC.replicaTokenThroughput) := by
  refine ⟨rfl, rfl, ?_, ?_, ?_⟩
  · intro h
    rcases h with h | h <;>
      constructor <;>
        simp [inferlineOnBatchEnd, customOnBatchEnd, emaOnBatchEnd, h]
  · intro hsa hca h
    rcases h with h | h <;>
      constructor <;>
        simp [inferlineOnBatchEnd, customOnBatchEnd, emaOnBatchEnd, hsa, hca, h]
  · intro hsa hca h1 h2
    constructor <;>
      simp [inferlineOnBatchEnd, customOnBatchEnd, emaOnBatchEnd, hsa, hca, h1, h2]

def cfgInferEx : InferlineConfig :=
  { minWindowSizeScaleUp := 1, minWindowSizeScaleDown := 1
    lookBackTimeScaleUp := 1, lookBackTimeScaleDown := 1
    stabilizationDelay := 1, throughputAlpha := 1/2 }

def sInferEx : InferlineState :=
  { replicaTokenThroughput := 1, lastScaleUpTime := none, arrivals := []
    numReplicas := 1, numPendingScaleUps := 0, numPendingScaleDowns := 0 }

def cfgCustomEx : CustomConfig :=
  { lookBackTimeScaleUp := 1, lookBackTimeScaleDown := 1
    minWindowSizeScaleUp := 1, minWindowSizeScaleDown := 1
    stabilizationDelay := 1, throughputAlpha := 1/2
    scaleUpThreshold := 1, scaleDownThreshold := 1
    minReplicas := 1, maxScalePerDecision := 1 }

def sCustomEx : CustomState :=
  { replicaTokenThroughput := 1, lastScaleUpTime := none, lastScaleDownTime := none
    arrivals := [], numReplicas := 1, numPendingScaleUps := 0
    numPendingScaleDowns := 0 }

/-- A batch of 225 total tokens over 10 time units. -/
def batchEx : Batch := { scheduledAt := some 0, completedAt := some 10, numTokens := [100, 125] }

theorem c7_ema_update_witness :
    (inferlineOnBatchEnd cfgInferEx sInferEx batchEx).replicaTokenThroughput = 47/4 ∧
    (customOnBatchEnd cfgCustomEx sCustomEx batchEx).replicaTokenThroughput = 47/4 := by
  have h := (c7_ema_update cfgInferEx cfgCustomEx sInferEx sCustomEx batchEx 0 10).2.2.2.2
    rfl rfl (by norm_num) (by decide)
  constructor
  · rw [h.1]
    norm_num [cfgInferEx, sInferEx, batchEx]
  · rw [h.2]
    norm_num [cfgCustomEx, sCustomEx, batchEx]

/-- Claim C2: both autoscalers evaluate the scale-up check before the
scale-down check, so whenever the scale-up branch condition holds, tune
returns a positive delta and stamps last_scale_up_time with now; and
whenever now - last_scale_up_time is strictly below the stabilization
delay, tune never returns a negative delta. -/
theorem c2_scale_up_precedence_and_hysteresis
    (cfgI : InferlineConfig) (sI : InferlineState)
    (cfgC : CustomConfig) (sC : CustomState) (time t0 t1 : ℚ) :
    (0 < sI.replicaTokenThroughput →
      sI.numReplicas + sI.numPendingScaleUps - sI.numPendingScaleDowns <
        ⌈(inferlineMaxRate sI.arrivals time cfgI.minWindowSizeScaleUp
            cfgI.lookBackTimeScaleUp).1 / sI.replicaTokenThroughput⌉ →
      0 < (inferlineTune cfgI sI time).1 ∧
        (inferlineTune cfgI sI time).2.lastScaleUpTime = some time) ∧
    (sI.lastScaleUpTime = some t0 → time - t0 < cfgI.stabilizationDelay →
      0 ≤ (inferlineTune cfgI sI time).1) ∧
    (¬ sC.replicaTokenThroughput ≤ 0 →
      ((sC.numReplicas + sC.numPendingScaleUps - sC.numPendingScaleDowns : ℤ) : ℚ) *
          sC.replicaTokenThroughput * cfgC.scaleUpThreshold <
        (customMaxRate sC.arrivals time cfgC.minWindowSizeScaleUp
          cfgC.lookBackTimeScaleUp).1 →
      0 < min (⌈(customMaxRate sC.arrivals time cfgC.minWindowSizeScaleUp
            cfgC.lookBackTimeScaleUp).1 / sC.replicaTokenThroughput⌉ -
          (sC.numReplicas + sC.numPendingScaleUps - sC.numPendingScaleDowns))
          cfgC.maxScalePerDecision →
      0 < (customTune cfgC sC time).1 ∧
        (customTune cfgC sC time).2.lastScaleUpTime = some time) ∧
    (sC.lastScaleUpTime = some t1 → time - t1 < cfgC.stabilizationDelay →
      0 ≤ (customTune cfgC sC time).1) := by
  refine ⟨?_, ?_, ?_, ?_⟩
  · intro ht hcur
    simp only [inferlineTune, if_pos ht, if_pos hcur]
    exact ⟨by omega, trivial⟩
  · intro hlast hlt
    have hcsd : (match sI.lastScaleUpTime with
        | none => true
        | some t => decide (cfgI.stabilizationDelay ≤ time - t)) = false := by
      rw [hlast]
      exact decide_eq_false (not_le.mpr hlt)
    by_cases ht : 0 < sI.replicaTokenThroughput
    · by_cases hcur : sI.numReplicas + sI.numPendingScaleUps - sI.numPendingScaleDowns <
          ⌈(inferlineMaxRate sI.arrivals time cfgI.minWindowSizeScaleUp
              cfgI.lookBackTimeScaleUp).1 / sI.replicaTokenThroughput⌉
      · simp only [inferlineTune, if_pos ht, if_pos hcur]
        omega
      · simp only [inferlineTune, if_pos ht, if_neg hcur, hcsd]
        simp
    · simp only [inferlineTune, if_neg ht, hcsd]
      simp
  · intro h0 hup hneeded
    simp only [customTune, if_neg h0, if_pos hup, if_pos hneeded]
    exact ⟨hneeded, trivial⟩
  · intro hlast hlt
    have hok : (match sC.lastScaleUpTime with
        | none => true
        | some t => decide (cfgC.stabilizationDelay ≤ time - t)) = false := by
      rw [hlast]
      exact decide_eq_false (not_le.mpr hlt)
    by_cases h0 : sC.replicaTokenThroughput ≤ 0
    · simp [customTune, h0]
    · by_cases hup : ((sC.numReplicas + sC.numPendingScaleUps -
          sC.numPendingScaleDowns : ℤ) : ℚ) * sC.replicaTokenThroughput *
          cfgC.scaleUpThreshold <
          (customMaxRate sC.arrivals time cfgC.minWindowSizeScaleUp
            cfgC.lookBackTimeScaleUp).1
      · by_cases hneeded : 0 < min (⌈(customMaxRate sC.arrivals time
              cfgC.minWindowSizeScaleUp cfgC.lookBackTimeScaleUp).1 /
              sC.replicaTokenThroughput⌉ -
            (sC.numReplicas + sC.numPendingScaleUps - sC.numPendingScaleDowns))
            cfgC.maxScalePerDecision
        · simp only [customTune, if_neg h0, if_pos hup, if_pos hneeded]
          omega
        · simp only [customTune, if_neg h0, if_pos hup, if_neg hneeded, hok]
          simp
      · simp only [customTune, if_neg h0, if_neg hup, hok]
        simp

def sInferDeficit : InferlineState :=
  { replicaTokenThroughput := 1, lastScaleUpTime := none, arrivals := []
    numReplicas := 0, numPendingScaleUps := 0, numPendingScaleDowns := 1 }

def sInferCooling : InferlineState :=
  { replicaTokenThroughput := 1, lastScaleUpTime := some 0, arrivals := []
    numReplicas := 1, numPendingScaleUps := 0, numPendingScaleDowns := 0 }

def sCustomDeficit : CustomState :=
  { replicaTokenThroughput := 1, lastScaleUpTime := none, lastScaleDownTime := none
    arrivals := [], numReplicas := 0, numPendingScaleUps := 0
    numPendingScaleDowns := 1 }

def sCustomCooling : CustomState :=
  { replicaTokenThroughput := 1, lastScaleUpTime := some 0, lastScaleDownTime := none
    arrivals := [], numReplicas := 1, numPendingScaleUps := 0
    numPendingScaleDowns := 0 }

theorem c2_scale_up_precedence_and_hysteresis_witness :
    (0 < (inferlineTune cfgInferEx sInferDeficit 0).1 ∧
      (inferlineTune cfgInferEx sInferDeficit 0).2.lastScaleUpTime = some 0) ∧
    0 ≤ (inferlineTune cfgInferEx sInferCooling 0).1 ∧
    (0 < (customTune cfgCustomEx sCustomDeficit 0).1 ∧
      (customTune cfgCustomEx sCustomDeficit 0).2.lastScaleUpTime = some 0) ∧
    0 ≤ (customTune cfgCustomEx sCustomCooling 0).1 :=
  ⟨(c2_scale_up_precedence_and_hysteresis cfgInferEx sInferDeficit
      cfgCustomEx sCustomDeficit 0 0 0).1
      (by norm_num [sInferDeficit])
      (by norm_num [sInferDeficit, cfgInferEx, inferlineMaxRate, pruneArrivals]),
   (c2_scale_up_precedence_and_hysteresis cfgInferEx sInferCooling
      cfgCustomEx sCustomCooling 0 0 0).2.1
      rfl (by norm_num [cfgInferEx]),
   (c2_scale_up_precedence_and_hysteresis cfgInferEx sInferDeficit
      cfgCustomEx sCustomDeficit 0 0 0).2.2.1
      (by norm_num [sCustomDeficit])
      (by norm_num [sCustomDeficit, cfgCustomEx, customMaxRate, pruneArrivals])
      (by norm_num [sCustomDeficit, cfgCustomEx, customMaxRate, pruneArrivals]),
   (c2_scale_up_precedence_and_hysteresis cfgInferEx sInferCooling
      cfgCustomEx sCustomCooling 0 0 0).2.2.2
      rfl (by norm_num [cfgCustomEx])⟩

/-- Claim C3: whenever tune returns a negative delta, the scale-down
target was clamped to the floor (one replica for Inferline, the
configured minimum-replica count for Custom), so the effective replica
count plus the returned delta never drops below that floor. -/
theorem c3_scale_down_floor
    (cfgI : InferlineConfig) (sI : InferlineState)
    (cfgC : CustomConfig) (sC : CustomState) (time : ℚ) :
    ((inferlineTune cfgI sI time).1 < 0 →
      1 ≤ sI.numReplicas + sI.numPendingScaleUps - sI.numPendingScaleDowns +
        (inferlineTune cfgI sI time).1) ∧
    ((customTune cfgC sC time).1 < 0 →
      cfgC.minReplicas ≤ sC.numReplicas + sC.numPendingScaleUps -
        sC.numPendingScaleDowns + (customTune cfgC sC time).1) := by
  constructor
  · by_cases ht : 0 < sI.replicaTokenThroughput
    · by_cases hcur : sI.numReplicas + sI.numPendingScaleUps - sI.numPendingScaleDowns <
          ⌈(inferlineMaxRate sI.arrivals time cfgI.minWindowSizeScaleUp
              cfgI.lookBackTimeScaleUp).1 / sI.replicaTokenThroughput⌉
      · simp only [inferlineTune, if_pos ht, if_pos hcur]
        omega
      · simp only [inferlineTune, if_pos ht, if_neg hcur]
        split
        · split
          · omega
          · omega
        · omega
    · simp only [inferlineTune, if_neg ht]
      split
      · split
        · omega
        · omega
      · omega
  · by_cases h0 : sC.replicaTokenThroughput ≤ 0
    · simp [customTune, h0]
    · by_cases hup : ((sC.numReplicas + sC.numPendingScaleUps -
          sC.numPendingScaleDowns : ℤ) : ℚ) * sC.replicaTokenThroughput *
          cfgC.scaleUpThreshold <
          (customMaxRate sC.arrivals time cfgC.minWindowSizeScaleUp
            cfgC.lookBackTimeScaleUp).1
      · by_cases hneeded : 0 < min (⌈(customMaxRate sC.arrivals time
              cfgC.minWindowSizeScaleUp cfgC.lookBackTimeScaleUp).1 /
              sC.replicaTokenThroughput⌉ -
            (sC.numReplicas + sC.numPendingScaleUps - sC.numPendingScaleDowns))
            cfgC.maxScalePerDecision
        · simp only [customTune, if_neg h0, if_pos hup, if_pos hneeded]
          omega
        · simp only [customTune, if_neg h0, if_pos hup, if_neg hneeded]
          split
          · split
            · omega
            · omega
          · omega
      · simp only [customTune, if_neg h0, if_neg hup]
        split
        · split
          · omega
          · omega
        · omega

def sInferMany : InferlineState :=
  { replicaTokenThroughput := 1, lastScaleUpTime := none, arrivals := []
    numReplicas := 3, numPendingScaleUps := 0, numPendingScaleDowns := 0 }

def sCustomMany : CustomState :=
  { replicaTokenThroughput := 1, lastScaleUpTime := none, lastScaleDownTime := none
    arrivals := [], numReplicas := 3, numPendingScaleUps := 0
    numPendingScaleDowns := 0 }

theorem c3_scale_down_floor_witness :
    (inferlineTune cfgInferEx sInferMany 0).1 < 0 ∧
    1 ≤ sInferMany.numReplicas + sInferMany.numPendingScaleUps -
      sInferMany.numPendingScaleDowns + (inferlineTune cfgInferEx sInferMany 0).1 ∧
    (customTune cfgCustomEx sCustomMany 0).1 < 0 ∧
    cfgCustomEx.minReplicas ≤ sCustomMany.numReplicas + sCustomMany.numPendingScaleUps -
      sCustomMany.numPendingScaleDowns + (customTune cfgCustomEx sCustomMany 0).1 := by
  have hI : (inferlineTune cfgInferEx sInferMany 0).1 < 0 := by
    norm_num [inferlineTune, inferlineMaxRate, pruneArrivals, cfgInferEx, sInferMany]
  have hC : (customTune cfgCustomEx sCustomMany 0).1 < 0 := by
    norm_num [customTune, customMaxRate, pruneArrivals, cfgCustomEx, sCustomMany]
  exact ⟨hI,
    (c3_scale_down_floor cfgInferEx sInferMany cfgCustomEx sCustomMany 0).1 hI,
    hC,
    (c3_scale_down_floor cfgInferEx sInferMany cfgCustomEx sCustomMany 0).2 hC⟩

theorem inferlineMaxRate_suffix (arr : List (ℚ × ℚ)) (time w l : ℚ) :
    (inferlineMaxRate arr time w l).2 <:+ arr := by
  simp only [inferlineMaxRate, pruneArrivals]
  split_ifs <;>
    first
      | exact List.suffix_refl _
      | exact List.dropWhile_suffix _

theorem customMaxRate_suffix (arr : List (ℚ × ℚ)) (time w l : ℚ) :
    (customMaxRate arr time w l).2 <:+ arr := by
  simp only [customMaxRate, pruneArrivals]
  split_ifs <;>
    first
      | exact List.suffix_refl _
      | exact List.dropWhile_suffix _

/-- Claim C10: tune leaves the throughput estimate, the replica count and
both pending-scale counters unchanged; the only state it may mutate is
last_scale_up_time (and last_scale_down_time for Custom), and the arrival
log only shrinks by pruning inside the two envelope queries (the new log
is a suffix of the old one). -/
theorem c10_tune_frame
    (cfgI : InferlineConfig) (sI : InferlineState)
    (cfgC : CustomConfig) (sC : CustomState) (time : ℚ) :
    ((inferlineTune cfgI sI time).2.replicaTokenThroughput = sI.replicaTokenThroughput ∧
     (inferlineTune cfgI sI time).2.numReplicas = sI.numReplicas ∧
     (inferlineTune cfgI sI time).2.numPendingScaleUps = sI.numPendingScaleUps ∧
     (inferlineTune cfgI sI time).2.numPendingScaleDowns = sI.numPendingScaleDowns ∧
     ((inferlineTune cfgI sI time).2.arrivals <:+ sI.arrivals) ∧
     ((inferlineTune cfgI sI time).2.lastScaleUpTime = sI.lastScaleUpTime ∨
      (inferlineTune cfgI sI time).2.lastScaleUpTime = some time)) ∧
    ((customTune cfgC sC time).2.replicaTokenThroughput = sC.replicaTokenThroughput ∧
     (customTune cfgC sC time).2.numReplicas = sC.numReplicas ∧
     (customTune cfgC sC time).2.numPendingScaleUps = sC.numPendingScaleUps ∧
     (customTune cfgC sC time).2.numPendingScaleDowns = sC.numPendingScaleDowns ∧
     ((customTune cfgC sC time).2.arrivals <:+ sC.arrivals) ∧
     ((customTune cfgC sC time).2.lastScaleUpTime = sC.lastScaleUpTime ∨
      (customTune cfgC sC time).2.lastScaleUpTime = some time) ∧
     ((customTune cfgC sC time).2.lastScaleDownTime = sC.lastScaleDownTime ∨
      (customTune cfgC sC time).2.lastScaleDownTime = some time)) := by
  constructor
  · have hsuf : (inferlineMaxRate (inferlineMaxRate sI.arrivals time
        cfgI.minWindowSizeScaleUp cfgI.lookBackTimeScaleUp).2 time
        cfgI.minWindowSizeScaleDown cfgI.lookBackTimeScaleDown).2 <:+ sI.arrivals :=
      List.IsSuffix.trans (inferlineMaxRate_suffix _ _ _ _)
        (inferlineMaxRate_suffix _ _ _ _)
    simp only [inferlineTune]
    split
    · exact ⟨rfl, rfl, rfl, rfl, hsuf, Or.inr rfl⟩
    · split_ifs <;> exact ⟨rfl, rfl, rfl, rfl, hsuf, Or.inl rfl⟩
  · have hsuf : (customMaxRate (customMaxRate sC.arrivals time
        cfgC.minWindowSizeScaleUp cfgC.lookBackTimeScaleUp).2 time
        cfgC.minWindowSizeScaleDown cfgC.lookBackTimeScaleDown).2 <:+ sC.arrivals :=
      List.IsSuffix.trans (customMaxRate_suffix _ _ _ _)
        (customMaxRate_suffix _ _ _ _)
    simp only [customTune]
    split
    · exact ⟨rfl, rfl, rfl, rfl, hsuf, Or.inl rfl, Or.inl rfl⟩
    · split
      · exact ⟨rfl, rfl, rfl, rfl, hsuf, Or.inr rfl, Or.inl rfl⟩
      · split_ifs <;>
          first
            | exact ⟨rfl, rfl, rfl, rfl, hsuf, Or.inl rfl, Or.inr rfl⟩
            | exact ⟨rfl, rfl, rfl, rfl, hsuf, Or.inl rfl, Or.inl rfl⟩

/-- Claim C8 (amended): both envelope variants return 0 for a
non-positive window size and for a log empty after pruning; pruning at a
query at time T with lookback L is permanent, so when every recorded
arrival is at or before T, a later query with positive window size at any
time T2 strictly greater than T + L (no intervening arrivals) returns 0
and leaves the internal arrival log empty.  At exactly T2 = T + L an
arrival recorded at time T survives the strict-inequality pruning, which
is what forces the strict bound (see the counterexample). -/
theorem c8_envelope_neutral_results :
    (∀ (arr : List (ℚ × ℚ)) (t w l : ℚ), w ≤ 0 → (inferlineMaxRate arr t w l).1 = 0) ∧
    (∀ (arr : List (ℚ × ℚ)) (t w l : ℚ), w ≤ 0 → (customMaxRate arr t w l).1 = 0) ∧
    (∀ (arr : List (ℚ × ℚ)) (t w l : ℚ), pruneArrivals arr (t - l) = [] →
      (inferlineMaxRate arr t w l).1 = 0) ∧
    (∀ (arr : List (ℚ × ℚ)) (t w l : ℚ), pruneArrivals arr (t - l) = [] →
      (customMaxRate arr t w l).1 = 0) ∧
    (∀ (arr : List (ℚ × ℚ)) (T L T2 w1 w2 : ℚ), (∀ p ∈ arr, p.1 ≤ T) →
      T + L < T2 → 0 < w2 →
      (inferlineMaxRate (inferlineMaxRate arr T w1 L).2 T2 w2 L).1 = 0 ∧
      (inferlineMaxRate (inferlineMaxRate arr T w1 L).2 T2 w2 L).2 = []) ∧
    (∀ (arr : List (ℚ × ℚ)) (T L T2 w1 w2 : ℚ), (∀ p ∈ arr, p.1 ≤ T) →
      T + L < T2 → 0 < w2 →
      (customMaxRate (customMaxRate arr T w1 L).2 T2 w2 L).1 = 0 ∧
      (customMaxRate (customMaxRate arr T w1 L).2 T2 w2 L).2 = []) := by
  refine ⟨?_, ?_, ?_, ?_, ?_, ?_⟩
  · intro arr t w l h
    simp [inferlineMaxRate, h]
  · intro arr t w l h
    simp [customMaxRate, h]
  · intro arr t w l h
    by_cases hw : w ≤ 0 <;> simp [inferlineMaxRate, hw, h]
  · intro arr t w l h
    by_cases hw : w ≤ 0 <;> simp [customMaxRate, hw, h]
  · intro arr T L T2 w1 w2 hall hT hw2
    have hmem : ∀ p ∈ (inferlineMaxRate arr T w1 L).2, p.1 ≤ T :=
      fun p hp => hall p ((inferlineMaxRate_suffix arr T w1 L).subset hp)
    set arr1 := (inferlineMaxRate arr T w1 L).2 with harr1
    have hprune : pruneArrivals arr1 (T2 - L) = [] := by
      unfold pruneArrivals
      rw [List.dropWhile_eq_nil_iff]
      intro p hp
      exact decide_eq_true (by linarith [hmem p hp])
    constructor <;> simp [inferlineMaxRate, not_le.mpr hw2, hprune]
  · intro arr T L T2 w1 w2 hall hT hw2
    have hmem : ∀ p ∈ (customMaxRate arr T w1 L).2, p.1 ≤ T :=
      fun p hp => hall p ((customMaxRate_suffix arr T w1 L).subset hp)
    set arr1 := (customMaxRate arr T w1 L).2 with harr1
    have hprune : pruneArrivals arr1 (T2 - L) = [] := by
      unfold pruneArrivals
      rw [List.dropWhile_eq_nil_iff]
      intro p hp
      exact decide_eq_true (by linarith [hmem p hp])
    constructor <;> simp [customMaxRate, not_le.mpr hw2, hprune]

/-- Counterexample to claim C8 as stated: with one arrival at time 0 of
weight 4, a first query at T = 0 with lookback L = 1 and window size 1,
and a second query at T2 = 1 = T + L (which the claim admits, requiring
result 0 and an empty log), the arrival at exactly time T survives the
strict-inequality pruning and the second query returns rate 4 on a
non-empty log. -/
theorem c8_permanent_pruning_counterexample :
    ¬ ((inferlineMaxRate (inferlineMaxRate [((0:ℚ), 4)] 0 1 1).2 1 1 1).1 = 0 ∧
       (inferlineMaxRate (inferlineMaxRate [((0:ℚ), 4)] 0 1 1).2 1 1 1).2 = []) := by
  intro h
  have h1 : (inferlineMaxRate [((0:ℚ), 4)] 0 1 1).2 = [((0:ℚ), 4)] := by
    norm_num [inferlineMaxRate, pruneArrivals, truncQ]
  rw [h1] at h
  have h2 := h.1
  norm_num [inferlineMaxRate, pruneArrivals, truncQ, tokensInWindow,
    show Int.toNat 2 = 2 from rfl, List.range_succ, sup_eq_max, max_def] at h2

theorem c8_envelope_neutral_results_witness :
    (inferlineMaxRate [((0:ℚ), 4)] 0 0 1).1 = 0 ∧
    (customMaxRate [((0:ℚ), 4)] 0 0 1).1 = 0 ∧
    (inferlineMaxRate ([] : List (ℚ × ℚ)) 0 1 1).1 = 0 ∧
    (customMaxRate ([] : List (ℚ × ℚ)) 0 1 1).1 = 0 ∧
    ((inferlineMaxRate (inferlineMaxRate [((0:ℚ), 4)] 0 1 1).2 3 1 1).1 = 0 ∧
      (inferlineMaxRate (inferlineMaxRate [((0:ℚ), 4)] 0 1 1).2 3 1 1).2 = []) ∧
    ((customMaxRate (customMaxRate [((0:ℚ), 4)] 0 1 1).2 3 1 1).1 = 0 ∧
      (customMaxRate (customMaxRate [((0:ℚ), 4)] 0 1 1).2 3 1 1).2 = []) :=
  ⟨c8_envelope_neutral_results.1 _ 0 0 1 (by norm_num),
   c8_envelope_neutral_results.2.1 _ 0 0 1 (by norm_num),
   c8_envelope_neutral_results.2.2.1 _ 0 1 1 rfl,
   c8_envelope_neutral_results.2.2.2.1 _ 0 1 1 rfl,
   c8_envelope_neutral_results.2.2.2.2.1 _ 0 1 3 1 1 (by simp) (by norm_num)
     (by norm_num),
   c8_envelope_neutral_results.2.2.2.2.2 _ 0 1 3 1 1 (by simp) (by norm_num)
     (by norm_num)⟩

theorem customSteps_zero (time s w : ℚ) (hw : 0 < w) (h : time ≤ s) :
    customSteps time s w = 0 := by
  unfold customSteps
  have hq : (time - s) / (w / 10) ≤ 0 :=
    div_nonpos_iff.mpr (Or.inr ⟨by linarith, by positivity⟩)
  have : (⌈(time - s) / (w / 10)⌉ : ℤ) ≤ 0 := by
    exact_mod_cast Int.ceil_le.mpr (by exact_mod_cast hq)
  omega

theorem customSteps_succ (time s w : ℚ) (hw : 0 < w) (h : s < time) :
    customSteps time s w = customSteps time (s + w / 10) w + 1 := by
  unfold customSteps
  have hstep : (0:ℚ) < w / 10 := by positivity
  have key : (time - (s + w / 10)) / (w / 10) = (time - s) / (w / 10) - 1 := by
    field_simp
    ring
  rw [key, Int.ceil_sub_one]
  have hpos : 0 < ⌈(time - s) / (w / 10)⌉ :=
    Int.ceil_pos.mpr (div_pos (by linarith) hstep)
  omega

theorem customLoopFuel_spec (arr : List (ℚ × ℚ)) (time w : ℚ) (hw : 0 < w) :
    ∀ (fuel : ℕ) (s m : ℚ), customSteps time s w ≤ fuel →
      customLoopFuel arr time w fuel s m =
        ((List.range (customSteps time s w)).map (fun k : ℕ => s + (k : ℚ) * (w / 10))).foldl
          (fun acc ws =>
            let we := min (ws + w) time
            if 0 < we - ws then max acc (tokensInWindow arr ws we / (we - ws)) else acc)
          m := by
  intro fuel
  induction fuel with
  | zero =>
    intro s m hle
    rw [Nat.le_zero.mp hle]
    rfl
  | succ fuel ih =>
    intro s m hle
    by_cases hs : s < time
    · have hsucc := customSteps_succ time s w hw hs
      rw [customLoopFuel, if_pos hs, hsucc]
      have hfun : (List.range (customSteps time (s + w / 10) w)).map
          ((fun k : ℕ => s + (k : ℚ) * (w / 10)) ∘ Nat.succ)
          = (List.range (customSteps time (s + w / 10) w)).map
            (fun k : ℕ => (s + w / 10) + (k : ℚ) * (w / 10)) := by
        apply List.map_congr_left
        intro a _
        simp only [Function.comp_apply]
        push_cast
        ring
      rw [List.range_succ_eq_map, List.map_cons, List.foldl_cons, List.map_map, hfun]
      have hinit : s + ((0:ℕ) : ℚ) * (w / 10) = s := by push_cast; ring
      rw [hinit]
      exact ih (s + w / 10) _ (by omega)
    · rw [customLoopFuel, if_neg hs, customSteps_zero time s w hw (not_lt.mp hs)]
      rfl

/-- Claim C6 (amended): for the Custom NetworkEnvelope, on a query with
positive window size whose pruned log is non-empty and not cold, the
candidate window starts advance in fixed increments of windowSize/10 from
now - lookback for as long as they precede now — that is
ceil(lookback / (windowSize/10)) evaluated positions, not always 11 — and
the returned value is the maximum over those candidate windows of the
weight sum in the half-open window divided by the actual, possibly
truncated, window duration.  The Inferline variant does not follow this
scheme at all (see the counterexample). -/
theorem c6_custom_window_scan (arr : List (ℚ × ℚ)) (time w lookback : ℚ)
    (hw : 0 < w)
    (hne : ¬ (pruneArrivals arr (time - lookback)).isEmpty)
    (hcold : ¬ ((pruneArrivals arr (time - lookback)).getLastD (0, 0)).1 <
      time - lookback) :
    (customMaxRate arr time w lookback).1 =
      ((List.range (Int.toNat ⌈lookback / (w / 10)⌉)).map
        (fun k : ℕ => (time - lookback) + (k : ℚ) * (w / 10))).foldl
        (fun acc ws =>
          let we := min (ws + w) time
          if 0 < we - ws then
            max acc (tokensInWindow (pruneArrivals arr (time - lookback)) ws we /
              (we - ws))
          else acc) 0 := by
  have hw2 : ¬ w ≤ 0 := not_le.mpr hw
  simp only [customMaxRate, if_neg hw2, if_neg hne, if_neg hcold]
  rw [customLoopFuel_spec _ _ _ hw _ _ _ le_rfl]
  have harg : time - (time - lookback) = lookback := by ring
  rw [customSteps, harg]

/-- Counterexample to claim C6 as stated: at window size 1 and lookback 2
the Custom envelope evaluates 20 candidate windows (not 11) and, for a
single arrival at 39/20 of weight 7 queried at time 2, its truncated last
window [1.9, 2) yields rate 70, while the claimed 11-window scheme yields
7; and the Inferline envelope (lookback 10, window 1, one arrival at 19/2
of weight 7, queried at time 10) returns 7 where the claimed scheme,
whose 11 starts only span [0, 1], yields 0. -/
theorem c6_eleven_window_counterexample :
    (customMaxRate [((39:ℚ)/20, 7)] 2 1 2).1 ≠
      claimEnvelopeRate [((39:ℚ)/20, 7)] 2 1 2 ∧
    (inferlineMaxRate [((19:ℚ)/2, 7)] 10 1 10).1 ≠
      claimEnvelopeRate [((19:ℚ)/2, 7)] 10 1 10 := by
  constructor
  · have hsteps : customSteps 2 (2 - 2) 1 = 20 := by
      norm_num [customSteps]
      rfl
    intro h
    rw [show ((2:ℚ) - 2) = 0 from by norm_num] at hsteps
    norm_num [customMaxRate, pruneArrivals, claimEnvelopeRate, hsteps,
      customLoopFuel, tokensInWindow, List.range_succ] at h
  · intro h
    norm_num [inferlineMaxRate, pruneArrivals, claimEnvelopeRate, truncQ,
      tokensInWindow, show Int.toNat 10 = 10 from rfl,
      List.range_succ] at h

theorem c6_custom_window_scan_witness :
    (customMaxRate [((3:ℚ)/4, 4)] 1 1 (1/2)).1 =
      ((List.range (Int.toNat ⌈(1:ℚ)/2 / (1 / 10)⌉)).map
        (fun k : ℕ => ((1:ℚ) - 1/2) + (k : ℚ) * (1 / 10))).foldl
        (fun acc ws =>
          let we := min (ws + 1) 1
          if 0 < we - ws then
            max acc (tokensInWindow (pruneArrivals [((3:ℚ)/4, 4)] (1 - 1/2)) ws we /
              (we - ws))
          else acc) 0 :=
  c6_custom_window_scan [((3:ℚ)/4, 4)] 1 1 (1/2) (by norm_num)
    (by norm_num [pruneArrivals]) (by norm_num [pruneArrivals])
